import Mathlib

/-!
Shallow embedding of `src/abra/analysis/seasonality_advanced.py`
(`calculate_seasonality_by_country`) over the reals.

Modelling conventions:
- Python floats are modelled as real numbers (`ℝ`); `numpy` arrays as `List ℝ`.
- `scipy.stats.linregress` is embedded following its source: bias-corrected
  population covariances, `r = 0` when either variance vanishes, and the
  clamp of `r` into `[-1, 1]`.  Its `ValueError` for constant `x` of length
  `> 1` is unreachable here because every `x` passed by the module is
  strictly increasing for lengths `≥ 2`, and the length-1 case passes the
  guard.
- Division by zero yields `0` in Lean's reals whereas numpy produces `nan`
  (with a warning, never an exception); this only diverges on length-1
  input series, about whose numeric outputs the spec makes no claim.
- Python exceptions inside the function's `try:` block are modelled by
  `Except PyErr`; the surrounding `except Exception: return None` is the
  outer `match` in `calculate_seasonality_by_country`.
- `datetime.strptime(date_str, "%b %d, %Y")` is stdlib code, not repository
  code; its outcome is modelled as the field `parsedDate : Option (Fin 12)`
  of a timeline item (`none` = `ValueError`, `some m` = the parsed month,
  the only component of the date the retained outputs depend on).
- The human-readable `equation` strings and the formatted `raw_data.dates`
  list (pure string formatting) are omitted from the result record.
-/

namespace Abra

/-- `np.mean` over a list: sum divided by length (`0` on `[]`, where the
code never takes a mean of an empty list on the paths modelled). -/
noncomputable def mean (l : List ℝ) : ℝ := l.sum / l.length

/-- Bias-`1` (population) cross moment used by `scipy.stats.linregress`
via `np.cov(x, y, bias=1)`: the mean of the products of deviations. -/
noncomputable def ssm (x y : List ℝ) : ℝ :=
  mean (List.zipWith (fun p q => (p - mean x) * (q - mean y)) x y)

/-- The clamp of the correlation coefficient into `[-1, 1]` performed by
`scipy.stats.linregress` after computing `r`. -/
noncomputable def clampR (r : ℝ) : ℝ :=
  if r > 1 then 1 else if r < -1 then -1 else r

/-- Result record of `scipy.stats.linregress` (the fields the module uses). -/
structure LinFit where
  slope : ℝ
  intercept : ℝ
  r : ℝ

/-- `scipy.stats.linregress(x, y)`: slope `ssxym / ssxm`, intercept
`ymean - slope * xmean`, and `r = 0` when `ssxm = 0` or `ssym = 0`, else
the clamped `ssxym / sqrt (ssxm * ssym)`. -/
noncomputable def linregress (x y : List ℝ) : LinFit :=
  { slope := ssm x y / ssm x x
    intercept := mean y - (ssm x y / ssm x x) * mean x
    r := if ssm x x = 0 ∨ ssm y y = 0 then 0
         else clampR (ssm x y / Real.sqrt (ssm x x * ssm y y)) }

/-- `np.maximum(y_vals, 0.1)`: floor every value to at least `0.1`. -/
noncomputable def floor01 (l : List ℝ) : List ℝ := l.map (fun v => max v 0.1)

/-- `np.arange(n)` cast to reals: the index axis of the regressions. -/
def xIdx (n : ℕ) : List ℝ := (List.range n).map (fun (i : ℕ) => (i : ℝ))

/-- The log-return loop: for `i` in `1..n`, if the previous (floored) value
is positive, append `log (y[i] / y[i-1])`. -/
noncomputable def logReturnsAux : List ℝ → List ℝ
  | p :: q :: rest =>
      (if p > 0 then [Real.log (q / p)] else []) ++ logReturnsAux (q :: rest)
  | _ => []

/-- `np.std` (population standard deviation, `ddof = 0`). -/
noncomputable def pstd (l : List ℝ) : ℝ :=
  Real.sqrt (mean (l.map (fun v => (v - mean l) ^ 2)))

/-- The three candidate trend models.  The source uses the strings
`'linear'`, `'exponential'`, `'logarithmic'`; the prediction dispatch's
`else` branch corresponds to `.logarithmic`, the only remaining value. -/
inductive TrendModel where
  | linear
  | exponential
  | logarithmic
deriving DecidableEq, Repr

/-- Linear fit of the series: `stats.linregress(x_vals, y_vals)`. -/
noncomputable def linFitOf (vals : List ℝ) : LinFit :=
  linregress (xIdx vals.length) vals

/-- `trend_linear = slope_linear * x_vals + intercept_linear`. -/
noncomputable def trendLinearOf (vals : List ℝ) : List ℝ :=
  (xIdx vals.length).map (fun t => (linFitOf vals).slope * t + (linFitOf vals).intercept)

/-- `r_squared_linear = r_value_linear ** 2`. -/
noncomputable def rsqLinOf (vals : List ℝ) : ℝ := (linFitOf vals).r ^ 2

/-- The log-space regression of the exponential fit:
`stats.linregress(x_vals, log(maximum(y_vals, 0.1)))`. -/
noncomputable def expFitOf (vals : List ℝ) : LinFit :=
  linregress (xIdx vals.length) ((floor01 vals).map Real.log)

/-- `a_exp = exp(intercept_exp)`. -/
noncomputable def aExpOf (vals : List ℝ) : ℝ := Real.exp (expFitOf vals).intercept

/-- `b_exp = slope_exp`. -/
noncomputable def bExpOf (vals : List ℝ) : ℝ := (expFitOf vals).slope

/-- `trend_exponential = a_exp * exp(b_exp * x_vals)`. -/
noncomputable def trendExpOf (vals : List ℝ) : List ℝ :=
  (xIdx vals.length).map (fun t => aExpOf vals * Real.exp (bExpOf vals * t))

/-- `r_squared_exp = r_value_exp ** 2` — the log-space regression's `r`. -/
noncomputable def rsqExpOf (vals : List ℝ) : ℝ := (expFitOf vals).r ^ 2

/-- `log_x = log(maximum(x_vals + 1, 1))`. -/
noncomputable def logXOf (vals : List ℝ) : List ℝ :=
  ((xIdx vals.length).map (fun t => max (t + 1) 1)).map Real.log

/-- Logarithmic fit: `stats.linregress(log_x, y_vals)`. -/
noncomputable def logFitOf (vals : List ℝ) : LinFit :=
  linregress (logXOf vals) vals

/-- `trend_logarithmic = slope_log * log_x + intercept_log`. -/
noncomputable def trendLogOf (vals : List ℝ) : List ℝ :=
  (logXOf vals).map (fun t => (logFitOf vals).slope * t + (logFitOf vals).intercept)

/-- `r_squared_log = r_value_log ** 2`. -/
noncomputable def rsqLogOf (vals : List ℝ) : ℝ := (logFitOf vals).r ^ 2

/-- The log-return series of the floored values. -/
noncomputable def logReturnsOf (vals : List ℝ) : List ℝ :=
  logReturnsAux (floor01 vals)

/-- `volatility = np.std(log_returns) if log_returns else 0`. -/
noncomputable def volatilityOf (vals : List ℝ) : ℝ :=
  if (logReturnsOf vals).isEmpty then 0 else pstd (logReturnsOf vals)

/-- `mean_log_return = np.mean(log_returns) if log_returns else 0`. -/
noncomputable def meanLogReturnOf (vals : List ℝ) : ℝ :=
  if (logReturnsOf vals).isEmpty then 0 else mean (logReturnsOf vals)

/-- Step 5 of the source: start from `(linear, r²_linear)`, replace by the
exponential candidate only if `r_squared_exp > best_r_squared`, then by the
logarithmic candidate only if `r_squared_log > best_r_squared`. -/
noncomputable def bestPair (vals : List ℝ) : TrendModel × ℝ :=
  let b1 := if rsqExpOf vals > rsqLinOf vals
            then (TrendModel.exponential, rsqExpOf vals)
            else (TrendModel.linear, rsqLinOf vals)
  if rsqLogOf vals > b1.2 then (TrendModel.logarithmic, rsqLogOf vals) else b1

/-- `best_model` after the two replacement checks. -/
noncomputable def bestModelOf (vals : List ℝ) : TrendModel := (bestPair vals).1

/-- `best_r_squared` after the two replacement checks. -/
noncomputable def bestRsqOf (vals : List ℝ) : ℝ := (bestPair vals).2

/-- `future_x = np.arange(len(vals), len(vals) + 3)` cast to reals. -/
def futureIdx (n : ℕ) : List ℝ := (List.range 3).map (fun k => ((n + k : ℕ) : ℝ))

/-- Step 6: the three-month prediction, dispatching on the chosen model
exactly as the source's `if`/`elif`/`else` chain does.  Note the
logarithmic branch uses `log (future_x + 1)` with no `maximum` guard. -/
noncomputable def predictionsOf (vals : List ℝ) : List ℝ :=
  match bestModelOf vals with
  | .linear =>
      (futureIdx vals.length).map
        (fun t => (linFitOf vals).slope * t + (linFitOf vals).intercept)
  | .exponential =>
      (futureIdx vals.length).map
        (fun t => aExpOf vals * Real.exp (bExpOf vals * t))
  | .logarithmic =>
      (futureIdx vals.length).map
        (fun t => (logFitOf vals).slope * Real.log (t + 1) + (logFitOf vals).intercept)

/-- One step of the month-grouping loop: appending `v` to the bucket of
month `m` (Python dicts preserve insertion order, and values are appended,
so an association list grown at the tail is the faithful model). -/
def addMonthly (acc : List (Fin 12 × List ℝ)) (m : Fin 12) (v : ℝ) :
    List (Fin 12 × List ℝ) :=
  match acc with
  | [] => [(m, [v])]
  | (k, l) :: rest =>
      if k = m then (k, l ++ [v]) :: rest else (k, l) :: addMonthly rest m v

/-- `monthly_values`: the per-month buckets, in first-appearance order. -/
def monthlyGroups (pairs : List (Fin 12 × ℝ)) : List (Fin 12 × List ℝ) :=
  pairs.foldl (fun acc p => addMonthly acc p.1 p.2) []

/-- `monthly_avg[month] = sum(values_list) / len(values_list)`. -/
noncomputable def monthlyAvgOf (pairs : List (Fin 12 × ℝ)) : List (Fin 12 × ℝ) :=
  (monthlyGroups pairs).map (fun g => (g.1, mean g.2))

/-- Step 8: `min((std(monthly averages) / overall_avg) * 100, 100)` when
`overall_avg > 0`, else `0`. -/
noncomputable def seasonalityScoreOf (pairs : List (Fin 12 × ℝ)) : ℝ :=
  let overall := mean (pairs.map Prod.snd)
  if overall > 0
  then min ((pstd ((monthlyAvgOf pairs).map Prod.snd) / overall) * 100) 100
  else 0

/-- `'High' if volatility > 0.5 else 'Medium' if volatility > 0.2 else 'Low'`. -/
noncomputable def riskLevelOf (vals : List ℝ) : String :=
  if volatilityOf vals > 0.5 then "High"
  else if volatilityOf vals > 0.2 then "Medium"
  else "Low"

/-- The dictionary returned by `calculate_seasonality_by_country`
(equation strings and formatted dates omitted — pure string formatting). -/
structure SeasonalityResult where
  country : String
  monthly_avg : List (Fin 12 × ℝ)
  overall_avg : ℝ
  seasonality_score : ℝ
  linear_values : List ℝ
  linear_r_squared : ℝ
  linear_slope : ℝ
  exponential_values : List ℝ
  exponential_r_squared : ℝ
  logarithmic_values : List ℝ
  logarithmic_r_squared : ℝ
  best_model : TrendModel
  best_r_squared : ℝ
  volatility : ℝ
  mean_log_return : ℝ
  risk_level : String
  predictions : List ℝ
  confidence : ℝ
  raw_values : List ℝ

/-- The result dictionary built at the end of the `try:` block, as a
function of the country code and the extracted `(month, value)` pairs. -/
noncomputable def buildResult (cc : String) (pairs : List (Fin 12 × ℝ)) :
    SeasonalityResult :=
  let vals := pairs.map Prod.snd
  { country := cc
    monthly_avg := monthlyAvgOf pairs
    overall_avg := mean vals
    seasonality_score := seasonalityScoreOf pairs
    linear_values := trendLinearOf vals
    linear_r_squared := rsqLinOf vals
    linear_slope := (linFitOf vals).slope
    exponential_values := trendExpOf vals
    exponential_r_squared := rsqExpOf vals
    logarithmic_values := trendLogOf vals
    logarithmic_r_squared := rsqLogOf vals
    best_model := bestModelOf vals
    best_r_squared := bestRsqOf vals
    volatility := volatilityOf vals
    mean_log_return := meanLogReturnOf vals
    risk_level := riskLevelOf vals
    predictions := predictionsOf vals
    confidence := bestRsqOf vals
    raw_values := vals }

/-- Python exceptions raisable inside the `try:` block: the `KeyError` of
`['timeline_data']` on a dict missing that key, and of `item['date']` on an
item missing `'date'`.  (No other statement in the block can raise: the
numeric code never throws — see the module comment.) -/
inductive PyErr where
  | keyError
deriving DecidableEq, Repr

/-- One timeline item.  `hasValues` is the truthiness of
`item.get('values')`; `hasDateKey` records whether `'date'` is a key
(`item['date']` raises `KeyError` otherwise); `parsedDate` is the outcome
of `datetime.strptime` (see module comment); `extractedValue` is
`item['values'][0].get('extracted_value', 0)` with the `0` default folded
in. -/
structure TimelineItem where
  hasValues : Bool
  hasDateKey : Bool
  parsedDate : Option (Fin 12)
  extractedValue : ℝ

/-- The extraction loop over `timeline_data`'s items: keep `(month, value)`
for every item with truthy `values` and a parseable date; silently skip
parse failures (inner `try`/`except: pass`); raise `KeyError` at the first
item with truthy `values` but no `'date'` key. -/
def extractLoop : List TimelineItem → Except PyErr (List (Fin 12 × ℝ))
  | [] => .ok []
  | item :: rest =>
      if item.hasValues then
        if item.hasDateKey then
          match item.parsedDate with
          | some m =>
              match extractLoop rest with
              | .ok tail => .ok ((m, item.extractedValue) :: tail)
              | .error e => .error e
          | none => extractLoop rest
      else .error .keyError
      else extractLoop rest

/-- The value of `timeline_data['interest_over_time']`: `timeline_data` is
`none` when the inner `'timeline_data'` key is missing (its access inside
the `try:` block raises `KeyError`). -/
structure InterestOverTime where
  timeline_data : Option (List TimelineItem)

/-- The `timeline_data` argument of the function: `isTruthy` is the
truthiness test `not timeline_data`, and `interest_over_time` is `none`
when `'interest_over_time' not in timeline_data`. -/
structure TimelineInput where
  isTruthy : Bool
  interest_over_time : Option InterestOverTime

/-- The body of the `try:` block: `.error` models a Python exception
escaping to the `except` clause, `.ok none` the early `return None` on an
empty extracted series, `.ok (some r)` the normal return. -/
noncomputable def seasonalityBody (iot : InterestOverTime) (cc : String) :
    Except PyErr (Option SeasonalityResult) :=
  match iot.timeline_data with
  | none => .error .keyError
  | some items =>
      match extractLoop items with
      | .error e => .error e
      | .ok pairs =>
          if (pairs.map Prod.snd).isEmpty then .ok none
          else .ok (some (buildResult cc pairs))

/-- `calculate_seasonality_by_country`: the guard
`if not timeline_data or 'interest_over_time' not in timeline_data:
return None` sits before the `try:`; the `except Exception` clause prints
and returns `None` (the print, which does not affect the result, is not
modelled). -/
noncomputable def calculate_seasonality_by_country
    (td : TimelineInput) (cc : String) : Option SeasonalityResult :=
  match td.isTruthy, td.interest_over_time with
  | false, _ => none
  | true, none => none
  | true, some iot =>
      match seasonalityBody iot cc with
      | .error _ => none
      | .ok r => r

/-! ### List arithmetic helpers -/

theorem zipWith_self_eq_map (f : ℝ → ℝ → ℝ) :
    ∀ l : List ℝ, List.zipWith f l l = l.map (fun t => f t t)
  | [] => rfl
  | a :: rest => by
      simp only [List.zipWith_cons_cons, List.map_cons, zipWith_self_eq_map f rest]

theorem zipWith_map_right_eq_map (f : ℝ → ℝ → ℝ) (g : ℝ → ℝ) :
    ∀ l : List ℝ, List.zipWith f l (l.map g) = l.map (fun t => f t (g t))
  | [] => rfl
  | a :: rest => by
      simp only [List.map_cons, List.zipWith_cons_cons,
        zipWith_map_right_eq_map f g rest]

theorem zipWith_map_both_eq_map (f : ℝ → ℝ → ℝ) (g h : ℝ → ℝ) :
    ∀ l : List ℝ, List.zipWith f (l.map g) (l.map h) = l.map (fun t => f (g t) (h t))
  | [] => rfl
  | a :: rest => by
      simp only [List.map_cons, List.zipWith_cons_cons,
        zipWith_map_both_eq_map f g h rest]

theorem sum_map_affine (a b : ℝ) :
    ∀ l : List ℝ, (l.map (fun t => a * t + b)).sum = a * l.sum + b * l.length
  | [] => by simp
  | x :: rest => by
      simp only [List.map_cons, List.sum_cons, sum_map_affine a b rest,
        List.length_cons]
      push_cast
      ring

theorem sum_map_mul (a : ℝ) (f : ℝ → ℝ) :
    ∀ l : List ℝ, (l.map (fun t => a * f t)).sum = a * (l.map f).sum
  | [] => by simp
  | x :: rest => by
      simp only [List.map_cons, List.sum_cons, sum_map_mul a f rest]
      ring

theorem le_sum_of_mem_of_nonneg :
    ∀ {l : List ℝ}, (∀ v ∈ l, 0 ≤ v) → ∀ {u : ℝ}, u ∈ l → u ≤ l.sum := by
  intro l
  induction l with
  | nil => intro _ u hu; cases hu
  | cons x rest ih =>
      intro h u hu
      rcases List.mem_cons.mp hu with rfl | hmem
      · have : 0 ≤ rest.sum :=
          List.sum_nonneg (fun v hv => h v (List.mem_cons_of_mem _ hv))
        simp only [List.sum_cons]
        linarith
      · have hx : 0 ≤ x := h x (List.mem_cons_self _ _)
        have : u ≤ rest.sum := ih (fun v hv => h v (List.mem_cons_of_mem _ hv)) hmem
        simp only [List.sum_cons]
        linarith

theorem mean_pos {l : List ℝ} (h1 : 0 < l.sum) (h2 : l ≠ []) : 0 < mean l :=
  div_pos h1 (by exact_mod_cast List.length_pos.mpr h2)

theorem mean_map_affine (a b : ℝ) (l : List ℝ) (h : l ≠ []) :
    mean (l.map (fun t => a * t + b)) = a * mean l + b := by
  have hn : (l.length : ℝ) ≠ 0 := by
    exact_mod_cast (List.length_pos.mpr h).ne'
  unfold mean
  rw [List.length_map, sum_map_affine]
  field_simp

theorem mean_map_mul (a : ℝ) (f : ℝ → ℝ) (l : List ℝ) :
    mean (l.map (fun t => a * f t)) = a * mean (l.map f) := by
  unfold mean
  rw [List.length_map, sum_map_mul, List.length_map]
  ring

/-! ### Moment lemmas -/

theorem ssm_self_eq_mean_sq (x : List ℝ) :
    ssm x x = mean (x.map (fun t => (t - mean x) ^ 2)) := by
  unfold ssm
  rw [zipWith_self_eq_map]
  congr 1
  apply List.map_congr_left
  intro t _
  ring

theorem ssm_self_nonneg (x : List ℝ) : 0 ≤ ssm x x := by
  rw [ssm_self_eq_mean_sq]
  unfold mean
  apply div_nonneg
  · exact List.sum_nonneg (by
      intro v hv
      rcases List.mem_map.mp hv with ⟨t, _, rfl⟩
      positivity)
  · positivity

theorem ssm_map_affine_right (x : List ℝ) (a b : ℝ) (hx : x ≠ []) :
    ssm x (x.map (fun t => a * t + b)) = a * ssm x x := by
  unfold ssm
  rw [mean_map_affine a b x hx, zipWith_map_right_eq_map, zipWith_self_eq_map]
  have : (fun t => (t - mean x) * (a * t + b - (a * mean x + b)))
      = fun t => a * ((t - mean x) * (t - mean x)) := by
    funext t; ring
  rw [this, mean_map_mul]

theorem ssm_map_affine_both (x : List ℝ) (a b : ℝ) (hx : x ≠ []) :
    ssm (x.map (fun t => a * t + b)) (x.map (fun t => a * t + b))
      = a ^ 2 * ssm x x := by
  unfold ssm
  rw [mean_map_affine a b x hx, zipWith_map_both_eq_map, zipWith_self_eq_map]
  have : (fun t => (a * t + b - (a * mean x + b)) * (a * t + b - (a * mean x + b)))
      = fun t => a ^ 2 * ((t - mean x) * (t - mean x)) := by
    funext t; ring
  rw [this, mean_map_mul]

/-! ### Regression lemmas -/

theorem clampR_one : clampR 1 = 1 := by
  unfold clampR
  norm_num

theorem clampR_neg_one : clampR (-1) = -1 := by
  unfold clampR
  norm_num

/-- `r` always lands in `[-1, 1]` (the guard gives `0`, the clamp does the
rest), so every `r_squared` in the module is at most `1`. -/
theorem linregress_rsq_le_one (x y : List ℝ) : (linregress x y).r ^ 2 ≤ 1 := by
  unfold linregress
  dsimp only
  split
  · norm_num
  · unfold clampR
    split
    · norm_num
    · split
      · norm_num
      · rename_i h1 h2
        push_neg at h1 h2
        nlinarith

/-- On data that is an exact affine image of the regressor with nonzero
slope (and nondegenerate regressor), `linregress` recovers the slope and
intercept exactly and its `r ** 2` is exactly `1`. -/
theorem linregress_affine (x : List ℝ) (a b : ℝ) (hx : x ≠ [])
    (hs : ssm x x ≠ 0) (ha : a ≠ 0) :
    (linregress x (x.map (fun t => a * t + b))).slope = a ∧
    (linregress x (x.map (fun t => a * t + b))).intercept = b ∧
    (linregress x (x.map (fun t => a * t + b))).r ^ 2 = 1 := by
  have hspos : 0 < ssm x x := lt_of_le_of_ne (ssm_self_nonneg x) (Ne.symm hs)
  have hxy : ssm x (x.map (fun t => a * t + b)) = a * ssm x x :=
    ssm_map_affine_right x a b hx
  have hyy : ssm (x.map (fun t => a * t + b)) (x.map (fun t => a * t + b))
      = a ^ 2 * ssm x x := ssm_map_affine_both x a b hx
  have hmy : mean (x.map (fun t => a * t + b)) = a * mean x + b :=
    mean_map_affine a b x hx
  refine ⟨?_, ?_, ?_⟩
  · show ssm x (x.map (fun t => a * t + b)) / ssm x x = a
    rw [hxy, mul_div_assoc, div_self hs, mul_one]
  · show mean (x.map (fun t => a * t + b))
        - ssm x (x.map (fun t => a * t + b)) / ssm x x * mean x = b
    rw [hmy, hxy, mul_div_assoc, div_self hs, mul_one]
    ring
  · show (if ssm x x = 0 ∨ ssm (x.map (fun t => a * t + b)) (x.map (fun t => a * t + b)) = 0
        then (0:ℝ)
        else clampR (ssm x (x.map (fun t => a * t + b))
          / Real.sqrt (ssm x x * ssm (x.map (fun t => a * t + b)) (x.map (fun t => a * t + b))))) ^ 2 = 1
    have hyy0 : ssm (x.map (fun t => a * t + b)) (x.map (fun t => a * t + b)) ≠ 0 := by
      rw [hyy]
      exact mul_ne_zero (pow_ne_zero 2 ha) hs
    rw [if_neg (by push_neg; exact ⟨hs, hyy0⟩), hxy, hyy]
    have hsq : ssm x x * (a ^ 2 * ssm x x) = (|a| * ssm x x) ^ 2 := by
      rw [mul_pow, sq_abs]
      ring
    rw [hsq, Real.sqrt_sq (by positivity)]
    have habs : |a| * ssm x x ≠ 0 := mul_ne_zero (abs_ne_zero.mpr ha) hs
    rcases lt_or_gt_of_ne ha with hneg | hpos
    · have : a * ssm x x / (|a| * ssm x x) = -1 := by
        rw [abs_of_neg hneg]
        field_simp
      rw [this, clampR_neg_one]
      norm_num
    · have : a * ssm x x / (|a| * ssm x x) = 1 := by
        rw [abs_of_pos hpos]
        field_simp
      rw [this, clampR_one]
      norm_num

/-! ### The index axis -/

theorem sum_xIdx (n : ℕ) : (xIdx n).sum = (n : ℝ) * ((n : ℝ) - 1) / 2 := by
  induction n with
  | zero => simp [xIdx]
  | succ m ih =>
      have hstep : xIdx (m + 1) = xIdx m ++ [(m : ℝ)] := by
        simp [xIdx, List.range_succ]
      rw [hstep, List.sum_append, ih]
      push_cast
      simp
      ring

theorem length_xIdx (n : ℕ) : (xIdx n).length = n := by
  simp [xIdx]

theorem mean_xIdx (n : ℕ) (hn : 0 < n) : mean (xIdx n) = ((n : ℝ) - 1) / 2 := by
  unfold mean
  rw [sum_xIdx, length_xIdx]
  have : (n : ℝ) ≠ 0 := Nat.cast_ne_zero.mpr hn.ne'
  field_simp
  ring

theorem zero_mem_xIdx (n : ℕ) (hn : 0 < n) : (0 : ℝ) ∈ xIdx n := by
  unfold xIdx
  exact List.mem_map.mpr ⟨0, List.mem_range.mpr hn, by norm_num⟩

theorem xIdx_ne_nil (n : ℕ) (hn : 0 < n) : xIdx n ≠ [] := by
  intro h
  have := length_xIdx n
  rw [h] at this
  simp at this
  omega

/-- For at least two sample points the index variance is strictly
positive, hence nonzero. -/
theorem ssm_xIdx_pos (n : ℕ) (hn : 2 ≤ n) : 0 < ssm (xIdx n) (xIdx n) := by
  have hn0 : 0 < n := by omega
  have hm : mean (xIdx n) = ((n : ℝ) - 1) / 2 := mean_xIdx n hn0
  have hmpos : 0 < mean (xIdx n) := by
    rw [hm]
    have : (2 : ℝ) ≤ (n : ℝ) := by exact_mod_cast hn
    linarith
  have hmne : mean (xIdx n) ≠ 0 := hmpos.ne'
  rw [ssm_self_eq_mean_sq]
  apply mean_pos
  · have hmem : ((0 : ℝ) - mean (xIdx n)) ^ 2
        ∈ (xIdx n).map (fun t => (t - mean (xIdx n)) ^ 2) :=
      List.mem_map.mpr ⟨0, zero_mem_xIdx n hn0, rfl⟩
    have hge : ((0 : ℝ) - mean (xIdx n)) ^ 2
        ≤ ((xIdx n).map (fun t => (t - mean (xIdx n)) ^ 2)).sum := by
      apply le_sum_of_mem_of_nonneg ?_ hmem
      intro v hv
      rcases List.mem_map.mp hv with ⟨t, _, rfl⟩
      positivity
    have hpos : 0 < ((0 : ℝ) - mean (xIdx n)) ^ 2 := by nlinarith [hmpos]
    linarith
  · intro hc
    have := congrArg List.length hc
    rw [List.length_map, length_xIdx] at this
    simp at this
    omega

/-! ### Floored values and log-returns -/

theorem floor01_length (l : List ℝ) : (floor01 l).length = l.length := by
  simp [floor01]

theorem floor01_pos (l : List ℝ) : ∀ v ∈ floor01 l, 0 < v := by
  intro v hv
  rcases List.mem_map.mp hv with ⟨t, _, rfl⟩
  have h1 : (0.1 : ℝ) ≤ max t 0.1 := le_max_right _ _
  exact lt_of_lt_of_le (by norm_num) h1

theorem floor01_idem (l : List ℝ) : floor01 (floor01 l) = floor01 l := by
  unfold floor01
  rw [List.map_map]
  apply List.map_congr_left
  intro t _
  simp only [Function.comp_apply]
  rw [max_assoc, max_self]

/-- Since every floored value is positive, the `if y_positive[i-1] > 0`
guard in the log-return loop never skips a pair: the loop output is the
log-ratio of every adjacent pair. -/
theorem logReturnsAux_of_pos :
    ∀ l : List ℝ, (∀ v ∈ l, 0 < v) →
      logReturnsAux l = List.zipWith (fun p q => Real.log (q / p)) l l.tail
  | [] , _ => rfl
  | [_], _ => rfl
  | x :: y :: rest, h => by
      have hx : 0 < x := h x (by simp)
      have hrest : ∀ v ∈ y :: rest, 0 < v := by
        intro v hv
        exact h v (List.mem_cons_of_mem _ hv)
      have ih := logReturnsAux_of_pos (y :: rest) hrest
      simp only [logReturnsAux, if_pos hx, List.singleton_append, ih,
        List.tail_cons, List.zipWith_cons_cons]

theorem logReturnsAux_short :
    ∀ l : List ℝ, l.length < 2 → logReturnsAux l = []
  | [], _ => rfl
  | [_], _ => rfl
  | _ :: _ :: _, h => by simp at h; omega

theorem logReturnsAux_replicate (d : ℝ) (hd : 0 < d) :
    ∀ n : ℕ, logReturnsAux (List.replicate (n + 1) d) = List.replicate n 0 := by
  intro n
  induction n with
  | zero => rfl
  | succ m ih =>
      have h2 : List.replicate (m + 2) d = d :: d :: List.replicate m d := by
        simp [List.replicate_succ]
      have h1 : d :: List.replicate m d = List.replicate (m + 1) d := by
        simp [List.replicate_succ]
      calc logReturnsAux (List.replicate (m + 1 + 1) d)
          = (if d > 0 then [Real.log (d / d)] else [])
              ++ logReturnsAux (d :: List.replicate m d) := by
            rw [show m + 1 + 1 = m + 2 from rfl, h2]
            rfl
        _ = Real.log (d / d) :: logReturnsAux (List.replicate (m + 1) d) := by
            rw [if_pos hd, h1, List.singleton_append]
        _ = 0 :: List.replicate m 0 := by
            rw [div_self hd.ne', Real.log_one, ih]
        _ = List.replicate (m + 1) 0 := by simp [List.replicate_succ]

theorem mean_replicate_zero (k : ℕ) : mean (List.replicate k 0) = 0 := by
  unfold mean
  simp

theorem pstd_replicate_zero (k : ℕ) : pstd (List.replicate k 0) = 0 := by
  unfold pstd
  rw [mean_replicate_zero]
  have : (List.replicate k (0 : ℝ)).map (fun v => (v - 0) ^ 2)
      = List.replicate k 0 := by
    rw [List.map_replicate]
    norm_num
  rw [this, mean_replicate_zero, Real.sqrt_zero]

/-- On a constant series of length `n ≥ 2` the log-returns are `n - 1`
zeros, so the reported volatility and mean log-return are exactly `0`. -/
theorem volatility_replicate (c : ℝ) (n : ℕ) (hn : 2 ≤ n) :
    volatilityOf (List.replicate n c) = 0
      ∧ meanLogReturnOf (List.replicate n c) = 0 := by
  have hd : 0 < max c 0.1 := lt_of_lt_of_le (by norm_num) (le_max_right _ _)
  have hfl : floor01 (List.replicate n c) = List.replicate n (max c 0.1) := by
    simp [floor01]
  have hrep : List.replicate n (max c 0.1)
      = List.replicate ((n - 1) + 1) (max c 0.1) := by
    congr 1
    omega
  have hlr : logReturnsOf (List.replicate n c) = List.replicate (n - 1) 0 := by
    unfold logReturnsOf
    rw [hfl, hrep, logReturnsAux_replicate _ hd]
  have hne : ¬ (logReturnsOf (List.replicate n c)).isEmpty = true := by
    rw [hlr]
    have : n - 1 = (n - 2) + 1 := by omega
    rw [this]
    simp [List.replicate_succ]
  constructor
  · unfold volatilityOf
    rw [if_neg hne, hlr, pstd_replicate_zero]
  · unfold meanLogReturnOf
    rw [if_neg hne, hlr, mean_replicate_zero]

/-! ### Model selection -/

/-- Characterisation of the sequential strict-improvement scan: the kept
`r_squared` is the maximum of the three, and each model is selected exactly
when it strictly beats every earlier candidate and is not strictly beaten
by any later one. -/
theorem bestPair_spec (vals : List ℝ) :
    bestRsqOf vals = max (max (rsqLinOf vals) (rsqExpOf vals)) (rsqLogOf vals)
    ∧ (bestModelOf vals = .linear
        ↔ rsqExpOf vals ≤ rsqLinOf vals ∧ rsqLogOf vals ≤ rsqLinOf vals)
    ∧ (bestModelOf vals = .exponential
        ↔ rsqLinOf vals < rsqExpOf vals ∧ rsqLogOf vals ≤ rsqExpOf vals)
    ∧ (bestModelOf vals = .logarithmic
        ↔ max (rsqLinOf vals) (rsqExpOf vals) < rsqLogOf vals) := by
  set rl := rsqLinOf vals with hrl
  set re := rsqExpOf vals with hre
  set rg := rsqLogOf vals with hrg
  unfold bestModelOf bestRsqOf
  by_cases h1 : re > rl
  · by_cases h2 : rg > re
    · have hb : bestPair vals = (TrendModel.logarithmic, rg) := by
        simp only [bestPair]
        rw [if_pos h1]
        dsimp only
        rw [if_pos h2]
      rw [hb]
      dsimp only
      refine ⟨?_, ?_, ?_, ?_⟩
      · rw [max_eq_right h1.le, max_eq_right h2.le]
      · exact ⟨fun h => absurd h (by decide), fun hh => absurd hh.1 (not_le.mpr h1)⟩
      · exact ⟨fun h => absurd h (by decide), fun hh => absurd hh.2 (not_le.mpr h2)⟩
      · exact ⟨fun _ => by rw [max_eq_right h1.le]; exact h2, fun _ => rfl⟩
    · have hle : rg ≤ re := not_lt.mp h2
      have hb : bestPair vals = (TrendModel.exponential, re) := by
        simp only [bestPair]
        rw [if_pos h1]
        dsimp only
        rw [if_neg h2]
      rw [hb]
      dsimp only
      refine ⟨?_, ?_, ?_, ?_⟩
      · rw [max_eq_right h1.le, max_eq_left hle]
      · exact ⟨fun h => absurd h (by decide), fun hh => absurd hh.1 (not_le.mpr h1)⟩
      · exact ⟨fun _ => ⟨h1, hle⟩, fun _ => rfl⟩
      · refine ⟨fun h => absurd h (by decide), fun hh => ?_⟩
        rw [max_eq_right h1.le] at hh
        exact absurd hh (not_lt.mpr hle)
  · have hle1 : re ≤ rl := not_lt.mp h1
    by_cases h2 : rg > rl
    · have hb : bestPair vals = (TrendModel.logarithmic, rg) := by
        simp only [bestPair]
        rw [if_neg h1]
        dsimp only
        rw [if_pos h2]
      rw [hb]
      dsimp only
      refine ⟨?_, ?_, ?_, ?_⟩
      · rw [max_eq_left hle1, max_eq_right h2.le]
      · exact ⟨fun h => absurd h (by decide), fun hh => absurd hh.2 (not_le.mpr h2)⟩
      · exact ⟨fun h => absurd h (by decide), fun hh => absurd hh.1 (not_lt.mpr hle1)⟩
      · exact ⟨fun _ => by rw [max_eq_left hle1]; exact h2, fun _ => rfl⟩
    · have hle2 : rg ≤ rl := not_lt.mp h2
      have hb : bestPair vals = (TrendModel.linear, rl) := by
        simp only [bestPair]
        rw [if_neg h1]
        dsimp only
        rw [if_neg h2]
      rw [hb]
      dsimp only
      refine ⟨?_, ?_, ?_, ?_⟩
      · rw [max_eq_left hle1, max_eq_left hle2]
      · exact ⟨fun _ => ⟨hle1, hle2⟩, fun _ => rfl⟩
      · exact ⟨fun h => absurd h (by decide), fun hh => absurd hh.1 (not_lt.mpr hle1)⟩
      · refine ⟨fun h => absurd h (by decide), fun hh => ?_⟩
        rw [max_eq_left hle1] at hh
        exact absurd hh (not_lt.mpr hle2)

/-! ### r-squared bounds and two-point series -/

theorem rsqLin_le_one (vals : List ℝ) : rsqLinOf vals ≤ 1 := by
  unfold rsqLinOf linFitOf
  exact linregress_rsq_le_one _ _

theorem rsqExp_le_one (vals : List ℝ) : rsqExpOf vals ≤ 1 := by
  unfold rsqExpOf expFitOf
  exact linregress_rsq_le_one _ _

theorem rsqLog_le_one (vals : List ℝ) : rsqLogOf vals ≤ 1 := by
  unfold rsqLogOf logFitOf
  exact linregress_rsq_le_one _ _

theorem linregress_r_guard (x y : List ℝ) (h : ssm y y = 0) :
    (linregress x y).r = 0 := by
  unfold linregress
  dsimp only
  rw [if_pos (Or.inr h)]

theorem ssm_pair_self_const (c : ℝ) : ssm [c, c] [c, c] = 0 := by
  have hm : mean [c, c] = c := by
    unfold mean
    simp
  unfold ssm
  rw [hm]
  simp [mean]

theorem xIdx_two : xIdx 2 = [(0 : ℝ), 1] := by
  have h : List.range 2 = [0, 1] := by decide
  simp [xIdx, h]

theorem pair_eq_affine (a b : ℝ) :
    ([a, b] : List ℝ) = (xIdx 2).map (fun t => (b - a) * t + a) := by
  rw [xIdx_two]
  simp

/-- A two-point series with distinct values is an exact affine image of the
index axis, so its linear `r ** 2` is exactly `1`. -/
theorem rsqLin_pair_of_ne (a b : ℝ) (hab : a ≠ b) : rsqLinOf [a, b] = 1 := by
  have h := linregress_affine (xIdx 2) (b - a) a (xIdx_ne_nil 2 (by norm_num))
    (ssm_xIdx_pos 2 (le_refl 2)).ne' (sub_ne_zero.mpr (Ne.symm hab))
  unfold rsqLinOf linFitOf
  rw [show ([a, b] : List ℝ).length = 2 from rfl, pair_eq_affine a b]
  exact h.2.2

/-- On any two-point series the selection keeps Linear: with distinct
values Linear fits perfectly and nothing can strictly beat `1`; with equal
values all three `r ** 2` are `0` and nothing strictly beats `0`. -/
theorem bestModel_pair_linear (a b : ℝ) : bestModelOf [a, b] = .linear := by
  rcases bestPair_spec [a, b] with ⟨-, hlin, -, -⟩
  by_cases hab : a = b
  · subst hab
    have h1 : rsqLinOf [a, a] = 0 := by
      unfold rsqLinOf linFitOf
      rw [linregress_r_guard _ _ (ssm_pair_self_const a)]
      norm_num
    have h2 : rsqExpOf [a, a] = 0 := by
      unfold rsqExpOf expFitOf
      have hfl : (floor01 [a, a]).map Real.log
          = [Real.log (max a 0.1), Real.log (max a 0.1)] := by
        simp [floor01]
      rw [hfl, linregress_r_guard _ _ (ssm_pair_self_const _)]
      norm_num
    have h3 : rsqLogOf [a, a] = 0 := by
      unfold rsqLogOf logFitOf
      rw [linregress_r_guard _ _ (ssm_pair_self_const a)]
      norm_num
    exact hlin.mpr ⟨by simp [h1, h2], by simp [h1, h3]⟩
  · have h1 : rsqLinOf [a, b] = 1 := rsqLin_pair_of_ne a b hab
    refine hlin.mpr ⟨?_, ?_⟩
    · rw [h1]
      exact rsqExp_le_one _
    · rw [h1]
      exact rsqLog_le_one _

/-- With both values at least the floor `0.1` and distinct, the floored
log-values are a two-point affine image with nonzero slope, so the
log-space exponential `r ** 2` is also exactly `1`. -/
theorem rsqExp_pair_of_ne (a b : ℝ) (ha : 0.1 ≤ a) (hb : 0.1 ≤ b)
    (hab : a ≠ b) : rsqExpOf [a, b] = 1 := by
  have hfl : floor01 [a, b] = [a, b] := by
    simp [floor01, max_eq_left ha, max_eq_left hb]
  have hlog : ([Real.log a, Real.log b] : List ℝ)
      = (xIdx 2).map (fun t => (Real.log b - Real.log a) * t + Real.log a) :=
    pair_eq_affine _ _
  have hane : Real.log b - Real.log a ≠ 0 := by
    have hpa : (0 : ℝ) < a := lt_of_lt_of_le (by norm_num) ha
    have hpb : (0 : ℝ) < b := lt_of_lt_of_le (by norm_num) hb
    rcases lt_or_gt_of_ne hab with hlt | hgt
    · have := Real.log_lt_log hpa hlt
      linarith
    · have := Real.log_lt_log hpb hgt
      linarith
  have h := linregress_affine (xIdx 2) (Real.log b - Real.log a) (Real.log a)
    (xIdx_ne_nil 2 (by norm_num)) (ssm_xIdx_pos 2 (le_refl 2)).ne' hane
  unfold rsqExpOf expFitOf
  rw [show ([a, b] : List ℝ).length = 2 from rfl, hfl,
    show ([a, b] : List ℝ).map Real.log = [Real.log a, Real.log b] by simp,
    hlog]
  exact h.2.2

/-- Claim C1: the selection scans Linear → Exponential → Logarithmic and
replaces the running best only on strict improvement, so the kept
`r_squared` is the maximum of the three and ties go to the earlier model;
in particular every two-point series selects Linear, and on a two-point
series where Linear and Exponential both fit perfectly (`r ** 2 = 1`)
Linear wins the tie. -/
theorem C1_model_selection :
    (∀ vals : List ℝ,
      bestRsqOf vals = max (max (rsqLinOf vals) (rsqExpOf vals)) (rsqLogOf vals)
      ∧ (bestModelOf vals = .linear
          ↔ rsqExpOf vals ≤ rsqLinOf vals ∧ rsqLogOf vals ≤ rsqLinOf vals)
      ∧ (bestModelOf vals = .exponential
          ↔ rsqLinOf vals < rsqExpOf vals ∧ rsqLogOf vals ≤ rsqExpOf vals)
      ∧ (bestModelOf vals = .logarithmic
          ↔ max (rsqLinOf vals) (rsqExpOf vals) < rsqLogOf vals))
    ∧ (∀ a b : ℝ, bestModelOf [a, b] = .linear)
    ∧ (∀ a b : ℝ, 0.1 ≤ a → 0.1 ≤ b → a ≠ b →
        rsqLinOf [a, b] = 1 ∧ rsqExpOf [a, b] = 1
          ∧ bestModelOf [a, b] = .linear) :=
  ⟨bestPair_spec,
   bestModel_pair_linear,
   fun a b ha hb hab =>
     ⟨rsqLin_pair_of_ne a b hab, rsqExp_pair_of_ne a b ha hb hab,
      bestModel_pair_linear a b⟩⟩

/-- Witness for C1 at the concrete tied series `[1, 2]`: both Linear and
Exponential fit perfectly and Linear is selected. -/
theorem C1_model_selection_witness :
    rsqLinOf [(1 : ℝ), 2] = 1 ∧ rsqExpOf [(1 : ℝ), 2] = 1
      ∧ bestModelOf [(1 : ℝ), 2] = .linear :=
  C1_model_selection.2.2 1 2 (by norm_num) (by norm_num) (by norm_num)

/-! ### Perfectly linear series (C3) -/

theorem futureIdx_eq (n : ℕ) :
    futureIdx n = [(n : ℝ), (n : ℝ) + 1, (n : ℝ) + 2] := by
  simp [futureIdx, List.range_succ]

/-- Claim C3: a series of the exact form `value[i] = a*i + b` with `a ≠ 0`
and at least two points has linear `r_squared` exactly `1`, selects the
Linear model, and forecasts the exact linear extrapolation at indices
`n`, `n+1`, `n+2`. -/
theorem C3_linear_series (a b : ℝ) (n : ℕ) (hn : 2 ≤ n) (ha : a ≠ 0) :
    rsqLinOf ((List.range n).map (fun (i : ℕ) => a * (i : ℝ) + b)) = 1
    ∧ bestModelOf ((List.range n).map (fun (i : ℕ) => a * (i : ℝ) + b)) = .linear
    ∧ predictionsOf ((List.range n).map (fun (i : ℕ) => a * (i : ℝ) + b))
        = [a * (n : ℝ) + b, a * ((n : ℝ) + 1) + b, a * ((n : ℝ) + 2) + b] := by
  set vals := (List.range n).map (fun (i : ℕ) => a * (i : ℝ) + b) with hvals
  have hlen : vals.length = n := by
    rw [hvals]
    simp
  have hmap : vals = (xIdx n).map (fun t => a * t + b) := by
    rw [hvals]
    unfold xIdx
    rw [List.map_map]
    rfl
  have hfit := linregress_affine (xIdx n) a b (xIdx_ne_nil n (by omega))
    (ssm_xIdx_pos n hn).ne' ha
  have hlinfit : linFitOf vals = linregress (xIdx n) ((xIdx n).map (fun t => a * t + b)) := by
    unfold linFitOf
    rw [hlen]
    congr 1
  have h1 : rsqLinOf vals = 1 := by
    unfold rsqLinOf
    rw [hlinfit]
    exact hfit.2.2
  have hbm : bestModelOf vals = .linear := by
    rcases bestPair_spec vals with ⟨-, hlin, -, -⟩
    refine hlin.mpr ⟨?_, ?_⟩
    · rw [h1]
      exact rsqExp_le_one _
    · rw [h1]
      exact rsqLog_le_one _
  refine ⟨h1, hbm, ?_⟩
  unfold predictionsOf
  rw [hbm]
  rw [hlinfit, hfit.1, hfit.2.1, hlen, futureIdx_eq]
  simp

/-- Witness for C3 at the concrete series `[10, 12, ..., 32]`
(`value[i] = 2*i + 10`, twelve points): linear `r_squared` is `1`, Linear
is selected, and the forecast is `[34, 36, 38]`. -/
theorem C3_linear_series_witness :
    rsqLinOf [(10 : ℝ), 12, 14, 16, 18, 20, 22, 24, 26, 28, 30, 32] = 1
    ∧ bestModelOf [(10 : ℝ), 12, 14, 16, 18, 20, 22, 24, 26, 28, 30, 32] = .linear
    ∧ predictionsOf [(10 : ℝ), 12, 14, 16, 18, 20, 22, 24, 26, 28, 30, 32]
        = [34, 36, 38] := by
  have hlist : (List.range 12).map (fun (i : ℕ) => (2 : ℝ) * (i : ℝ) + 10)
      = [(10 : ℝ), 12, 14, 16, 18, 20, 22, 24, 26, 28, 30, 32] := by
    have h12 : List.range 12 = [0, 1, 2, 3, 4, 5, 6, 7, 8, 9, 10, 11] := by decide
    rw [h12]
    norm_num
  have h := C3_linear_series 2 10 12 (by norm_num) (by norm_num)
  rw [hlist] at h
  refine ⟨h.1, h.2.1, ?_⟩
  rw [h.2.2]
  norm_num

/-! ### Exponential fit (C4) -/

/-- A concrete input whose extracted series is `[0, 5, 0, 10]` — the
spec's zero-containing example. -/
def zerosInput : TimelineInput :=
  ⟨true, some ⟨some [⟨true, true, some 0, 0⟩, ⟨true, true, some 1, 5⟩,
                     ⟨true, true, some 2, 0⟩, ⟨true, true, some 3, 10⟩]⟩⟩

theorem expFit_floor_invariant (vals : List ℝ) :
    expFitOf (floor01 vals) = expFitOf vals := by
  unfold expFitOf
  rw [floor01_length, floor01_idem]

/-- Claim C4: the exponential fit floors each value to `max(v, 0.1)`, takes
natural logs, regresses them on the index, sets `scale = exp(log_a)` and
`rate = b`, reconstructs `scale * exp(rate * index)`, and its `r_squared`
is that of the log-linear regression itself; the fit depends only on the
floored values, and a series containing zeros (extracted `[0, 5, 0, 10]`)
does not raise — the analysis returns a result. -/
theorem C4_exponential_fit :
    (∀ vals : List ℝ,
      expFitOf vals
        = linregress (xIdx vals.length)
            ((vals.map (fun v => max v 0.1)).map Real.log)
      ∧ aExpOf vals = Real.exp (expFitOf vals).intercept
      ∧ bExpOf vals = (expFitOf vals).slope
      ∧ trendExpOf vals
          = (xIdx vals.length).map
              (fun t => Real.exp (expFitOf vals).intercept
                * Real.exp ((expFitOf vals).slope * t))
      ∧ rsqExpOf vals = (expFitOf vals).r ^ 2
      ∧ rsqExpOf (floor01 vals) = rsqExpOf vals
      ∧ aExpOf (floor01 vals) = aExpOf vals
      ∧ bExpOf (floor01 vals) = bExpOf vals)
    ∧ (calculate_seasonality_by_country zerosInput "ES").isSome = true := by
  refine ⟨fun vals => ⟨rfl, rfl, rfl, rfl, rfl, ?_, ?_, ?_⟩, rfl⟩
  · unfold rsqExpOf
    rw [expFit_floor_invariant]
  · unfold aExpOf
    rw [expFit_floor_invariant]
  · unfold bExpOf
    rw [expFit_floor_invariant]

/-! ### Volatility and log-returns (C5) -/

/-- Claim C5: the log-returns are `log(value[i]/value[i-1])` over every
adjacent pair of the floored values (the positivity guard never skips a
pair since floored values are at least `0.1`); with fewer than 2 values
there are no log-returns and both volatility and mean log-return are `0`
instead of a division-by-zero error; otherwise they are the population
standard deviation and the mean of the log-returns. -/
theorem C5_volatility (vals : List ℝ) :
    logReturnsOf vals
      = List.zipWith (fun p q => Real.log (q / p))
          (floor01 vals) (floor01 vals).tail
    ∧ (vals.length < 2 →
        volatilityOf vals = 0 ∧ meanLogReturnOf vals = 0)
    ∧ (logReturnsOf vals ≠ [] →
        volatilityOf vals = pstd (logReturnsOf vals)
        ∧ meanLogReturnOf vals = mean (logReturnsOf vals)) := by
  refine ⟨logReturnsAux_of_pos (floor01 vals) (floor01_pos vals), ?_, ?_⟩
  · intro h
    have hsh : logReturnsOf vals = [] := by
      unfold logReturnsOf
      apply logReturnsAux_short
      rw [floor01_length]
      exact h
    unfold volatilityOf meanLogReturnOf
    rw [hsh]
    simp
  · intro h
    have hne : ¬ (logReturnsOf vals).isEmpty = true := by
      simpa [List.isEmpty_iff] using h
    unfold volatilityOf meanLogReturnOf
    rw [if_neg hne, if_neg hne]
    exact ⟨rfl, rfl⟩

/-- Witness for C5 at the one-point series `[5]`. -/
theorem C5_volatility_witness :
    ([(5 : ℝ)] : List ℝ).length < 2
    ∧ volatilityOf [(5 : ℝ)] = 0 ∧ meanLogReturnOf [(5 : ℝ)] = 0 := by
  have h := (C5_volatility [(5 : ℝ)]).2.1 (by norm_num)
  exact ⟨by norm_num, h.1, h.2⟩

/-! ### Risk classification (C6) -/

/-- The volatility of `[1, exp u, 1]` is exactly `u` (for `u ≥ 0`): the
log-returns are `[u, -u]` with mean `0` and population standard deviation
`u`.  Used to exercise the High/Medium thresholds concretely. -/
theorem volatility_three_exp (u : ℝ) (hu : 0 ≤ u) :
    volatilityOf [1, Real.exp u, 1] = u := by
  have hexp_pos : (0 : ℝ) < Real.exp u := Real.exp_pos u
  have hexp_ge : (0.1 : ℝ) ≤ Real.exp u := by
    have h1 := Real.add_one_le_exp u
    linarith
  have hfl : floor01 [1, Real.exp u, 1] = [1, Real.exp u, 1] := by
    unfold floor01
    rw [List.map_cons, List.map_cons, List.map_cons, List.map_nil,
      max_eq_left (by norm_num : (0.1 : ℝ) ≤ 1), max_eq_left hexp_ge]
  have hlr : logReturnsOf [1, Real.exp u, 1] = [u, -u] := by
    unfold logReturnsOf
    rw [hfl]
    show (if (1 : ℝ) > 0 then [Real.log (Real.exp u / 1)] else [])
        ++ ((if Real.exp u > 0 then [Real.log (1 / Real.exp u)] else [])
            ++ []) = [u, -u]
    rw [if_pos (by norm_num : (1 : ℝ) > 0), if_pos hexp_pos]
    rw [div_one, Real.log_exp, one_div, Real.log_inv, Real.log_exp]
    rfl
  have hmean : mean [u, -u] = 0 := by
    unfold mean
    simp
  have hstd : pstd [u, -u] = u := by
    unfold pstd
    rw [hmean]
    have hmap : ([u, -u] : List ℝ).map (fun v => (v - 0) ^ 2)
        = [u ^ 2, u ^ 2] := by
      norm_num
    rw [hmap]
    have hm2 : mean [u ^ 2, u ^ 2] = u ^ 2 := by
      unfold mean
      simp
    rw [hm2, Real.sqrt_sq hu]
  unfold volatilityOf
  rw [hlr] at *
  rw [if_neg (by simp), hstd]

/-- Claim C6: the risk label is exactly High for volatility above `0.5`,
Medium for volatility in `(0.2, 0.5]`, Low otherwise; and a constant
series of length at least 2 has volatility exactly `0`, hence risk Low. -/
theorem C6_risk_level :
    (∀ vals : List ℝ,
      (volatilityOf vals > 0.5 → riskLevelOf vals = "High")
      ∧ (0.2 < volatilityOf vals → volatilityOf vals ≤ 0.5 →
          riskLevelOf vals = "Medium")
      ∧ (volatilityOf vals ≤ 0.2 → riskLevelOf vals = "Low"))
    ∧ (∀ (c : ℝ) (n : ℕ), 2 ≤ n →
        volatilityOf (List.replicate n c) = 0
        ∧ riskLevelOf (List.replicate n c) = "Low") := by
  constructor
  · intro vals
    refine ⟨?_, ?_, ?_⟩
    · intro h
      unfold riskLevelOf
      rw [if_pos h]
    · intro h1 h2
      unfold riskLevelOf
      rw [if_neg (not_lt.mpr h2), if_pos h1]
    · intro h
      unfold riskLevelOf
      rw [if_neg (not_lt.mpr (h.trans (by norm_num))), if_neg (not_lt.mpr h)]
  · intro c n hn
    have hv := volatility_replicate c n hn
    refine ⟨hv.1, ?_⟩
    unfold riskLevelOf
    rw [hv.1]
    norm_num

/-- Witness for C6: `[1, exp 1, 1]` has volatility `1` (High), `[1,
exp (2/5), 1]` has volatility `2/5` (Medium), and the constant series
`[7, 7]` has volatility `0` (Low). -/
theorem C6_risk_level_witness :
    riskLevelOf [1, Real.exp 1, 1] = "High"
    ∧ riskLevelOf [1, Real.exp (2 / 5), 1] = "Medium"
    ∧ volatilityOf (List.replicate 2 (7 : ℝ)) = 0
    ∧ riskLevelOf (List.replicate 2 (7 : ℝ)) = "Low" := by
  have h1 : volatilityOf [1, Real.exp 1, 1] = 1 :=
    volatility_three_exp 1 (by norm_num)
  have h2 : volatilityOf [1, Real.exp (2 / 5), 1] = 2 / 5 :=
    volatility_three_exp (2 / 5) (by norm_num)
  refine ⟨(C6_risk_level.1 _).1 (by rw [h1]; norm_num),
          (C6_risk_level.1 _).2.1 (by rw [h2]; norm_num) (by rw [h2]; norm_num),
          (C6_risk_level.2 7 2 (by norm_num)).1,
          (C6_risk_level.2 7 2 (by norm_num)).2⟩

/-! ### Forecast (C7) -/

/-- The fitted formula of the model the selection kept (for the
logarithmic model this is the fit's own `log(maximum(index + 1, 1))`
shape). -/
noncomputable def selFun (vals : List ℝ) : ℝ → ℝ :=
  match bestModelOf vals with
  | .linear => fun t => (linFitOf vals).slope * t + (linFitOf vals).intercept
  | .exponential => fun t => aExpOf vals * Real.exp (bExpOf vals * t)
  | .logarithmic =>
      fun t => (logFitOf vals).slope * Real.log (max (t + 1) 1)
        + (logFitOf vals).intercept

/-- The fitted values of the selected model. -/
noncomputable def trendOfSelected (vals : List ℝ) : List ℝ :=
  match bestModelOf vals with
  | .linear => trendLinearOf vals
  | .exponential => trendExpOf vals
  | .logarithmic => trendLogOf vals

/-- Claim C7: the forecast is exactly 3 points, obtained by applying the
selected model's own fitted formula at the future indices `n`, `n+1`,
`n+2` (for the logarithmic model the missing `maximum` guard is harmless
because future indices are nonnegative), and the reported confidence is
the selected model's `r_squared`. -/
theorem C7_forecast :
    (∀ vals : List ℝ,
      (predictionsOf vals).length = 3
      ∧ trendOfSelected vals = (xIdx vals.length).map (selFun vals)
      ∧ predictionsOf vals = (futureIdx vals.length).map (selFun vals))
    ∧ (∀ (cc : String) (pairs : List (Fin 12 × ℝ)),
        (buildResult cc pairs).predictions = predictionsOf (pairs.map Prod.snd)
        ∧ (buildResult cc pairs).confidence = (buildResult cc pairs).best_r_squared) := by
  constructor
  · intro vals
    have hflen : (futureIdx vals.length).length = 3 := by
      simp [futureIdx]
    cases hb : bestModelOf vals with
    | linear =>
        refine ⟨?_, ?_, ?_⟩
        · unfold predictionsOf
          rw [hb]
          rw [List.length_map, hflen]
        · unfold trendOfSelected selFun
          rw [hb]
          rfl
        · unfold predictionsOf selFun
          rw [hb]
    | exponential =>
        refine ⟨?_, ?_, ?_⟩
        · unfold predictionsOf
          rw [hb]
          rw [List.length_map, hflen]
        · unfold trendOfSelected selFun
          rw [hb]
          rfl
        · unfold predictionsOf selFun
          rw [hb]
    | logarithmic =>
        refine ⟨?_, ?_, ?_⟩
        · unfold predictionsOf
          rw [hb]
          rw [List.length_map, hflen]
        · unfold trendOfSelected selFun
          rw [hb]
          dsimp only
          unfold trendLogOf logXOf
          rw [List.map_map, List.map_map]
          rfl
        · unfold predictionsOf selFun
          rw [hb]
          dsimp only
          apply List.map_congr_left
          intro t ht
          rcases List.mem_map.mp ht with ⟨k, -, rfl⟩
          have h0 : (0 : ℝ) ≤ ((vals.length + k : ℕ) : ℝ) := Nat.cast_nonneg _
          rw [max_eq_left (by linarith : (1 : ℝ) ≤ ((vals.length + k : ℕ) : ℝ) + 1)]
  · intro cc pairs
    exact ⟨rfl, rfl⟩

/-! ### Determinism (C8) -/

/-- Claim C8: the analysis is a pure function of its arguments — two
invocations on the identical input produce identical results.  (In this
purely functional embedding the absence of input mutation and of hidden
state is by construction; the only effect of the source outside its return
value is a diagnostic print on the swallowed-exception path, which does
not influence any result.) -/
theorem C8_determinism (td : TimelineInput) (cc : String) :
    calculate_seasonality_by_country td cc
      = calculate_seasonality_by_country td cc := rfl

/-! ### The outer function: error handling (C2, C9) and the score (C10) -/

theorem calc_false (io : Option InterestOverTime) (cc : String) :
    calculate_seasonality_by_country ⟨false, io⟩ cc = none := rfl

theorem calc_true_none (cc : String) :
    calculate_seasonality_by_country ⟨true, none⟩ cc = none := rfl

theorem calc_true_some (iot : InterestOverTime) (cc : String) :
    calculate_seasonality_by_country ⟨true, some iot⟩ cc
      = (match seasonalityBody iot cc with
         | .error _ => none
         | .ok r => r) := rfl

theorem body_some_items (items : List TimelineItem) (cc : String) :
    seasonalityBody ⟨some items⟩ cc
      = (match extractLoop items with
         | .error e => .error e
         | .ok pairs =>
             if (pairs.map Prod.snd).isEmpty then .ok none
             else .ok (some (buildResult cc pairs))) := rfl

/-- Counterexample to C2 as stated: on the empty series the body of the
`try:` block returns `None` normally — `InsufficientDataError` (which the
repository never defines) is not raised, no exception reaches the caller,
and the caller-facing function returns `None`. -/
theorem C2_counterexample :
    seasonalityBody ⟨some []⟩ "ES" = Except.ok none
    ∧ seasonalityBody ⟨some []⟩ "ES" ≠ Except.error PyErr.keyError
    ∧ calculate_seasonality_by_country ⟨true, some ⟨some []⟩⟩ "ES" = none := by
  have h0 : seasonalityBody ⟨some []⟩ "ES"
      = Except.ok (none : Option SeasonalityResult) := rfl
  refine ⟨h0, ?_, rfl⟩
  rw [h0]
  exact fun h => Except.noConfusion h

/-- Amended C2: calling the analysis on an empty series returns `None`
rather than raising, and no exception ever propagates to the caller —
every body exception is converted to `None`. -/
theorem C2_amended :
    (∀ (b : Bool) (cc : String),
      calculate_seasonality_by_country ⟨b, some ⟨some []⟩⟩ cc = none)
    ∧ (∀ (iot : InterestOverTime) (cc : String) (e : PyErr) (b : Bool),
        seasonalityBody iot cc = Except.error e →
        calculate_seasonality_by_country ⟨b, some iot⟩ cc = none) := by
  constructor
  · intro b cc
    cases b
    · rfl
    · rfl
  · intro iot cc e b h
    cases b
    · rfl
    · rw [calc_true_some, h]

/-- Witness for the amended C2: the empty series returns `None`, and a
concrete body exception (missing `'timeline_data'` key) also surfaces as
`None`. -/
theorem C2_amended_witness :
    calculate_seasonality_by_country ⟨true, some ⟨some []⟩⟩ "ES" = none
    ∧ seasonalityBody ⟨none⟩ "ES" = Except.error PyErr.keyError
    ∧ calculate_seasonality_by_country ⟨true, some ⟨none⟩⟩ "ES" = none :=
  ⟨C2_amended.1 true "ES", rfl, C2_amended.2 ⟨none⟩ "ES" PyErr.keyError true rfl⟩

/-- An item contributing a point: truthy `values`, a `'date'` key, and a
date `strptime` accepts. -/
def parseable (item : TimelineItem) : Prop :=
  item.hasValues = true ∧ item.hasDateKey = true ∧ item.parsedDate.isSome = true

instance (item : TimelineItem) : Decidable (parseable item) := by
  unfold parseable
  infer_instance

theorem extractLoop_no_parseable :
    ∀ items : List TimelineItem, (∀ i ∈ items, ¬ parseable i) →
      extractLoop items = .error PyErr.keyError ∨ extractLoop items = .ok [] := by
  intro items
  induction items with
  | nil => intro _; right; rfl
  | cons item rest ih =>
      intro h
      have hi := h item (List.mem_cons_self _ _)
      have hr := ih (fun i hmem => h i (List.mem_cons_of_mem _ hmem))
      unfold extractLoop
      by_cases hv : item.hasValues = true
      · rw [if_pos hv]
        by_cases hd : item.hasDateKey = true
        · rw [if_pos hd]
          cases hpd : item.parsedDate with
          | none =>
              exact hr
          | some m =>
              exact absurd ⟨hv, hd, by rw [hpd]; rfl⟩ hi
        · rw [if_neg hd]
          left
          rfl
      · rw [if_neg hv]
        exact hr

/-- Claim C9: the caller-facing function never raises — a falsy input, a
missing `'interest_over_time'` key, an input with no parseable entry, and
any body exception all alike return `None`, indistinguishable to the
caller. -/
theorem C9_failures_return_none :
    (∀ (td : TimelineInput) (cc : String), td.isTruthy = false →
        calculate_seasonality_by_country td cc = none)
    ∧ (∀ (td : TimelineInput) (cc : String), td.interest_over_time = none →
        calculate_seasonality_by_country td cc = none)
    ∧ (∀ (b : Bool) (items : List TimelineItem) (cc : String),
        (∀ i ∈ items, ¬ parseable i) →
        calculate_seasonality_by_country ⟨b, some ⟨some items⟩⟩ cc = none)
    ∧ (∀ (b : Bool) (iot : InterestOverTime) (cc : String) (e : PyErr),
        seasonalityBody iot cc = Except.error e →
        calculate_seasonality_by_country ⟨b, some iot⟩ cc = none) := by
  refine ⟨?_, ?_, ?_, ?_⟩
  · intro td cc h
    obtain ⟨bt, io⟩ := td
    have hb : bt = false := h
    subst hb
    rfl
  · intro td cc h
    obtain ⟨bt, io⟩ := td
    have hio : io = none := h
    subst hio
    cases bt
    · rfl
    · rfl
  · intro b items cc h
    cases b
    · rfl
    · rcases extractLoop_no_parseable items h with he | he
      · have hbody : seasonalityBody ⟨some items⟩ cc
            = Except.error PyErr.keyError := by
          rw [body_some_items, he]
        rw [calc_true_some, hbody]
      · have hbody : seasonalityBody ⟨some items⟩ cc
            = Except.ok (none : Option SeasonalityResult) := by
          rw [body_some_items, he]
          rfl
        rw [calc_true_some, hbody]
  · intro b iot cc e h
    cases b
    · rfl
    · rw [calc_true_some, h]

/-- Witness for C9: one concrete input per failure mode, all returning
`None`. -/
theorem C9_failures_return_none_witness :
    calculate_seasonality_by_country ⟨false, none⟩ "ES" = none
    ∧ calculate_seasonality_by_country ⟨true, none⟩ "PT" = none
    ∧ calculate_seasonality_by_country
        ⟨true, some ⟨some [⟨false, false, none, 5⟩]⟩⟩ "ES" = none
    ∧ calculate_seasonality_by_country ⟨true, some ⟨none⟩⟩ "ES" = none := by
  refine ⟨C9_failures_return_none.1 ⟨false, none⟩ "ES" rfl,
          C9_failures_return_none.2.1 ⟨true, none⟩ "PT" rfl,
          C9_failures_return_none.2.2.1 true _ "ES" ?_,
          C9_failures_return_none.2.2.2 true ⟨none⟩ "ES" PyErr.keyError rfl⟩
  intro i hi
  have : i = ⟨false, false, none, 5⟩ := List.mem_singleton.mp hi
  subst this
  exact fun hp => Bool.noConfusion hp.1

/-- Whenever the function returns a result, that result was built by the
final dictionary construction from some extracted `(month, value)` list. -/
theorem calc_some_inv (td : TimelineInput) (cc : String) (r : SeasonalityResult)
    (h : calculate_seasonality_by_country td cc = some r) :
    ∃ pairs : List (Fin 12 × ℝ), r = buildResult cc pairs := by
  obtain ⟨bt, io⟩ := td
  cases bt
  · exact Option.noConfusion h
  · cases io with
    | none => exact Option.noConfusion h
    | some iot =>
        obtain ⟨tdl⟩ := iot
        cases tdl with
        | none => exact Option.noConfusion h
        | some items =>
            rw [calc_true_some, body_some_items] at h
            cases he : extractLoop items with
            | error e =>
                rw [he] at h
                exact Option.noConfusion h
            | ok pairs =>
                rw [he] at h
                dsimp only at h
                by_cases hemp : ((pairs.map Prod.snd).isEmpty = true)
                · rw [if_pos hemp] at h
                  exact Option.noConfusion h
                · rw [if_neg hemp] at h
                  have h' : some (buildResult cc pairs) = some r := h
                  exact ⟨pairs, (Option.some.inj h').symm⟩

theorem pstd_nonneg (l : List ℝ) : 0 ≤ pstd l := Real.sqrt_nonneg _

/-- Claim C10: every non-`None` result has a seasonality score in
`[0, 100]`, equal to `min((std of monthly averages / overall average) *
100, 100)` when the overall average is positive and to `0` otherwise. -/
theorem C10_score_bounds (td : TimelineInput) (cc : String)
    (r : SeasonalityResult)
    (h : calculate_seasonality_by_country td cc = some r) :
    0 ≤ r.seasonality_score ∧ r.seasonality_score ≤ 100
    ∧ (r.overall_avg > 0 →
        r.seasonality_score
          = min ((pstd (r.monthly_avg.map Prod.snd) / r.overall_avg) * 100) 100)
    ∧ (¬ r.overall_avg > 0 → r.seasonality_score = 0) := by
  obtain ⟨pairs, rfl⟩ := calc_some_inv td cc r h
  show 0 ≤ seasonalityScoreOf pairs ∧ seasonalityScoreOf pairs ≤ 100
    ∧ (mean (pairs.map Prod.snd) > 0 →
        seasonalityScoreOf pairs
          = min ((pstd ((monthlyAvgOf pairs).map Prod.snd)
              / mean (pairs.map Prod.snd)) * 100) 100)
    ∧ (¬ mean (pairs.map Prod.snd) > 0 → seasonalityScoreOf pairs = 0)
  unfold seasonalityScoreOf
  by_cases hpos : mean (pairs.map Prod.snd) > 0
  · rw [if_pos hpos]
    refine ⟨le_min ?_ (by norm_num), min_le_right _ _, fun _ => rfl,
      fun hc => absurd hpos hc⟩
    exact mul_nonneg (div_nonneg (pstd_nonneg _) hpos.le) (by norm_num)
  · rw [if_neg hpos]
    exact ⟨le_refl 0, by norm_num, fun hc => absurd hc hpos, fun _ => rfl⟩

/-- Witness for C10: a one-item input whose analysis succeeds; its score
obeys the bounds. -/
theorem C10_score_bounds_witness :
    calculate_seasonality_by_country
        ⟨true, some ⟨some [⟨true, true, some 0, 50⟩]⟩⟩ "ES"
      = some (buildResult "ES" [((0 : Fin 12), (50 : ℝ))])
    ∧ 0 ≤ (buildResult "ES" [((0 : Fin 12), (50 : ℝ))]).seasonality_score
    ∧ (buildResult "ES" [((0 : Fin 12), (50 : ℝ))]).seasonality_score ≤ 100 := by
  have hc : calculate_seasonality_by_country
      ⟨true, some ⟨some [⟨true, true, some 0, 50⟩]⟩⟩ "ES"
      = some (buildResult "ES" [((0 : Fin 12), (50 : ℝ))]) := rfl
  have h := C10_score_bounds _ "ES" _ hc
  exact ⟨hc, h.1, h.2.1⟩

end Abra
